import Mathlib

/-
Verification of the SymbolicScrollFocusFilter pipeline
(src/SymbolicScrollFocusFilter.py).

The Python class is embedded shallowly:
  * pure methods (detect_injection, extract_symbolic_traits) become pure
    Lean functions on String / List Char;
  * the two re.sub sanitizer passes become explicit left-to-right
    scanners that reproduce the lazy-quantifier semantics of the
    patterns r'<script.*?</script>' (IGNORECASE | DOTALL) and
    r'on\w+=["QUOTE].*?["QUOTE]';
  * sanitize_and_focus_context and process_text_file become functions
    that take the instance state (and, for process_text_file, a world
    holding the input filesystem, the backup store and an entropy
    stream for key generation) and return the result together with the
    updated state, mirroring the mutations the Python methods perform;
  * the third-party Fernet cipher is abstracted as a blob carrying the
    generating key, with decryption succeeding exactly under that key.
All definitions are computable so concrete runs evaluate by decide.
-/

namespace ScrollFilter


/-- Python str.lower restricted to ASCII: uppercase letters A-Z are
shifted to lowercase, every other character is kept.  All texts and
patterns in the pipeline are ASCII, so this models text.lower() and
the re.IGNORECASE comparisons. -/

def pyLower (c : Char) : Char :=
  if 65 ≤ c.toNat ∧ c.toNat ≤ 90 then Char.ofNat (c.toNat + 32) else c

/-- Lower-case a character list (model of text.lower()). -/

def lowerData (s : List Char) : List Char := s.map pyLower

/-- Unanchored substring search: re.search of a literal pattern p in s
succeeds iff p occurs at some position of s. -/

def containsSub (p : List Char) : List Char → Bool
  | [] => p.isPrefixOf []
  | c :: rest => p.isPrefixOf (c :: rest) || containsSub p rest

/-- detect_injection (src lines 18-29).  The first five patterns carry
the (?i) flag and are matched case-insensitively; the character-class
pattern [\[\(]inject[\]\)] is expanded into its four literal instances;
base64 and http[s]?:// are matched case-sensitively, exactly as in the
source, where those three patterns carry no flag. -/

def detect_injection (s : String) : Bool :=
  containsSub "ignore previous instructions".data (lowerData s.data) ||
  containsSub "system prompt".data (lowerData s.data) ||
  containsSub "forget everything".data (lowerData s.data) ||
  containsSub "output as code".data (lowerData s.data) ||
  containsSub "reveal secret".data (lowerData s.data) ||
  containsSub "[inject]".data s.data ||
  containsSub "[inject)".data s.data ||
  containsSub "(inject]".data s.data ||
  containsSub "(inject)".data s.data ||
  containsSub "base64".data s.data ||
  containsSub "http://".data s.data ||
  containsSub "https://".data s.data

/-- SymbolicTraits: the two-field tag bag built by
extract_symbolic_traits. -/

structure Traits where
  energy : String
  ethics : String
deriving DecidableEq

/-- extract_symbolic_traits (src lines 31-37): defaults
energy=neutral / ethics=grounded, flipped by the case-insensitive
substring tests for "energetic" and "chaotic" on text.lower(). -/

def extract_symbolic_traits (text : String) : Traits :=
  { energy := if containsSub "energetic".data (lowerData text.data) then "high" else "neutral"
    ethics := if containsSub "chaotic".data (lowerData text.data) then "chaotic" else "grounded" }

/-- Python repr of the traits dict as it is interpolated into the
returned f-strings: insertion order is energy then ethics. -/

def reprTraits (t : Traits) : String :=
  "\x7b\x27energy\x27: \x27" ++ t.energy ++ "\x27, \x27ethics\x27: \x27" ++
    t.ethics ++ "\x27\x7d"

/-- Opening literal of the script-block pattern. -/

def scriptOpen : List Char := "<script".data

/-- Closing literal of the script-block pattern. -/

def scriptClose : List Char := "</script>".data

/-- Case-insensitive prefix test at the current position (the pattern
argument is lowercase). -/

def startsWithCI (p s : List Char) : Bool := p.isPrefixOf (lowerData s)

/-- Shortest-match search for the earliest case-insensitive occurrence
of the closing tag; returns the remainder after it.  This is the lazy
quantifier of the script-block pattern under re.DOTALL, where the dot
matches every character including newline. -/

def dropToScriptClose : List Char → Option (List Char)
  | [] => none
  | c :: rest =>
    if startsWithCI scriptClose (c :: rest) then some (rest.drop 8)
    else dropToScriptClose rest

/-- Leftmost match of the script-block pattern (IGNORECASE, DOTALL) at
the head of s: the opening literal, then the lazily shortest stretch
up to the earliest closing tag.  Returns the remainder after the match. -/

def matchScript (s : List Char) : Option (List Char) :=
  if startsWithCI scriptOpen s then dropToScriptClose (s.drop 7) else none

/-- Word character of the regex \w, for the ASCII texts the pipeline
handles: letters, digits, underscore. -/

def isWordChar (c : Char) : Bool :=
  (97 ≤ c.toNat && c.toNat ≤ 122) || (65 ≤ c.toNat && c.toNat ≤ 90) ||
  (48 ≤ c.toNat && c.toNat ≤ 57) || c == '_'

/-- Double-quote character. -/

def dquote : Char := Char.ofNat 34

/-- Single-quote character. -/

def squote : Char := Char.ofNat 39

/-- Quote class ["QUOTE] of the handler pattern: either quote style. -/

def isQuoteChar (c : Char) : Bool := c == dquote || c == squote

/-- Lazy scan of .*?["QUOTE] without DOTALL: succeed at the earliest
quote character, fail on a newline (the dot does not match it) or at
the end of input.  Returns the remainder after the closing quote. -/

def scanToQuote : List Char → Option (List Char)
  | [] => none
  | c :: rest =>
    if isQuoteChar c then some rest
    else if c == '\n' then none
    else scanToQuote rest

/-- Leftmost match of r'on\w+=["QUOTE].*?["QUOTE]' (no flags, so
case-sensitive and the dot excludes newline) at the head of s: literal
on, a maximal nonempty word-character run (the greedy \w+ cannot
backtrack past anything, because = is not a word character), the =,
one opening quote, then the lazily earliest quote of either style.
Returns the remainder after the match. -/

def matchHandler (s : List Char) : Option (List Char) :=
  match s with
  | 'o' :: 'n' :: rest =>
    if (rest.takeWhile isWordChar).isEmpty then none
    else
      match rest.dropWhile isWordChar with
      | '=' :: q :: rest3 => if isQuoteChar q then scanToQuote rest3 else none
      | _ => none
  | _ => none

/-- re.sub with empty replacement: scan left to right, remove each
leftmost match of the matcher m and continue after it, otherwise emit
one character and move on.  The fuel bounds the number of scan steps;
with fuel = length of the input it never runs out, because every step
consumes at least one character. -/

def replaceAllF (m : List Char → Option (List Char)) : Nat → List Char → List Char
  | 0, s => s
  | _ + 1, [] => []
  | fuel + 1, c :: rest =>
    match m (c :: rest) with
    | some rest2 => replaceAllF m fuel rest2
    | none => c :: replaceAllF m fuel rest

/-- re.search of the matcher m: does any position of s start a match? -/

def containsMatch (m : List Char → Option (List Char)) : List Char → Bool
  | [] => false
  | c :: rest => (m (c :: rest)).isSome || containsMatch m rest

/-- First re.sub pass of sanitize_and_focus_context (src line 42):
remove all script blocks in one left-to-right pass. -/

def stripScript (s : List Char) : List Char := replaceAllF matchScript s.length s

/-- Second re.sub pass of sanitize_and_focus_context (src line 43):
remove all inline event-handler attributes in one left-to-right pass. -/

def stripHandlers (s : List Char) : List Char := replaceAllF matchHandler s.length s

/-- Both sanitizer passes in source order: scripts first, handlers
second. -/

def sanitizeList (s : List Char) : List Char := stripHandlers (stripScript s)

/-- Does s contain a substring matched by the script-block pattern? -/

def containsScriptBlock (s : List Char) : Bool := containsMatch matchScript s

/-- Does s contain a substring matched by the handler-attribute
pattern? -/

def containsHandlerAttr (s : List Char) : Bool := containsMatch matchHandler s

/-- Approved vocabulary of the focus filter (src line 47). -/

def focusPhrases : List (List Char) := ["symbiosis".data, "compression".data, "truth".data]

/-- Whitespace for str.split() with no argument, ASCII range: space,
tab, newline, carriage return, vertical tab, form feed. -/

def pySpace (c : Char) : Bool :=
  c == ' ' || c == '\x09' || c == '\n' || c == '\x0d' || c == '\x0b' || c == '\x0c'

/-- Accumulating scanner for str.split(): split on runs of whitespace
and drop empty tokens. -/

def pySplitGo (acc : List Char) : List Char → List (List Char)
  | [] => if acc.isEmpty then [] else [acc.reverse]
  | c :: rest =>
    if pySpace c then
      if acc.isEmpty then pySplitGo [] rest else acc.reverse :: pySplitGo [] rest
    else pySplitGo (c :: acc) rest

/-- context.split() of src line 48. -/

def pySplit (s : List Char) : List (List Char) := pySplitGo [] s

/-- SectionRecord stored in symbolic_memory under a section name. -/

structure SectionRecord where
  content : String
  traits : Traits
deriving DecidableEq

/-- Instance state of the SymbolicScrollFocusFilter class: the
constructor parameters and the mutable session fields.  The session id
is produced at construction by generate_session_id and never
reassigned; symbolic_memory is the dict keyed by section name
(insertion-ordered, modelled as an association list). -/

structure SymbolicScrollFocusFilter where
  mood_threshold : Rat
  symbolic_memory : List (String × SectionRecord)
  session_id : String
  backup_dir : String
deriving DecidableEq

/-- Filesystem entry: Path.exists() is true for both regular files and
directories, but open() only succeeds on files. -/

inductive FSEntry where
  | file (content : String)
  | dir
deriving DecidableEq

/-- Modelled from the spec: output of the third-party Fernet cipher
(the cryptography package, not part of this repository).  The spec
describes it as authenticated symmetric encryption of the raw content
under a freshly generated key, so a blob is the pair of the generating
key and the protected payload; it can only be opened with that key. -/

structure EncBlob where
  key : Nat
  payload : String
deriving DecidableEq

/-- Modelled from the spec: Fernet decryption, which succeeds exactly
under the key that produced the blob (authenticated symmetric
encryption). -/

def fernetDecrypt (k : Nat) (b : EncBlob) : Option String :=
  if k = b.key then some b.payload else none

/-- External state of one run: the readable filesystem, the backup
directory contents (path component inside backup_dir mapped to the
written blob; a second write to the same name overwrites), and the
entropy stream from which Fernet.generate_key() draws one fresh value
per call. -/

structure World where
  files : List (String × FSEntry)
  backups : List (String × EncBlob)
  entropy : Nat → Nat
  entropyIdx : Nat

/-- Dict/filesystem update: replace the value at an existing key in
place, append a fresh key at the end. -/

def updateAssoc {β : Type} (k : String) (v : β) :
    List (String × β) → List (String × β)
  | [] => [(k, v)]
  | (k2, v2) :: rest => if k2 = k then (k, v) :: rest else (k2, v2) :: updateAssoc k v rest

/-- Path.stem: final path component without its last suffix (a leading
dot does not start a suffix). -/

def stemOf (fp : String) : String :=
  match (fp.data.reverse.takeWhile (fun c => !(c == '/'))).reverse with
  | [] => String.mk []
  | c :: rest =>
    if rest.contains '.' then
      String.mk (c :: ((rest.reverse.dropWhile (fun x => !(x == '.'))).drop 1).reverse)
    else String.mk (c :: rest)

/-- generate_session_id (src lines 15-16): secrets.token_hex(16)
renders 16 random bytes as 32 lowercase hexadecimal characters, two
per byte, high nibble first. -/

def generate_session_id (bytes : List Nat) : String :=
  String.mk ((bytes.map (fun b => [Nat.digitChar (b / 16), Nat.digitChar (b % 16)])).flatten)

/-- sanitize_and_focus_context (src lines 39-49).  The method mutates
no instance field, so it returns the message together with the
unchanged state: injection check first (hard short-circuit), then the
two re.sub passes, then trait re-extraction on the sanitized text,
then either the pruned branch (chaotic ethics) or the focus reduction
to the approved vocabulary. -/

def sanitize_and_focus_context (f : SymbolicScrollFocusFilter) (context : String) :
    String × SymbolicScrollFocusFilter :=
  if detect_injection context then
    ("Suspicious input in session " ++ f.session_id ++ ". Context neutralized.", f)
  else
    let c2 := sanitizeList context.data
    let traits := extract_symbolic_traits (String.mk c2)
    if traits.ethics = "chaotic" then
      ("Pruned context in " ++ f.session_id ++ " for symbiosis. Traits: " ++
        reprTraits traits, f)
    else
      let focused := List.intercalate [' ']
        ((pySplit c2).filter (fun w => focusPhrases.contains (w.map pyLower)))
      ("Focused context in " ++ f.session_id ++ ": " ++ String.mk focused ++
        ". Traits: " ++ reprTraits traits, f)

/-- Result of process_text_file: either the returned status string or
the fault that an open() on a directory raises (nothing in the
pipeline catches it). -/

inductive PyResult where
  | ok (msg : String)
  | isADirectoryError
deriving DecidableEq

/-- process_text_file (src lines 51-71).  Missing path: not-found
status, nothing changes.  Directory: the existence check passes but
open() raises, nothing was mutated before the raise.  File: traits of
the raw content; on high energy the section record is stored under
"text_section", the focus pipeline runs on the raw content, one fresh
key is drawn from the entropy stream, and the Fernet blob is written
to stem_sessionid.enc inside the backup directory (overwriting any
previous blob of that name); otherwise the low-energy notice is
returned with no state change. -/

def process_text_file (fp : String) (f : SymbolicScrollFocusFilter) (w : World) :
    PyResult × SymbolicScrollFocusFilter × World :=
  match List.lookup fp w.files with
  | none =>
    (.ok ("File " ++ fp ++ " not found in session " ++ f.session_id ++ "."), f, w)
  | some .dir => (.isADirectoryError, f, w)
  | some (.file content) =>
    let traits := extract_symbolic_traits content
    if traits.energy = "high" then
      let f1 : SymbolicScrollFocusFilter :=
        { f with symbolic_memory :=
            updateAssoc "text_section" ⟨content, traits⟩ f.symbolic_memory }
      let focused := (sanitize_and_focus_context f1 content).1
      let key := w.entropy w.entropyIdx
      let name := stemOf fp ++ "_" ++ f.session_id ++ ".enc"
      let w1 : World :=
        { w with backups := updateAssoc name ⟨key, content⟩ w.backups,
                 entropyIdx := w.entropyIdx + 1 }
      (.ok ("Processed + preserved " ++ fp ++ ": " ++ focused), f1, w1)
    else
      (.ok ("Buffered low-energy text from " ++ fp ++ ". Traits: " ++ reprTraits traits),
        f, w)

/-- Detector that the specification describes: every one of the eight
signatures matched case-insensitively.  Written from the claim text
(not from the source) for comparison with detect_injection above. -/
def detectAllCaseInsensitive (s : String) : Bool :=
  containsSub "ignore previous instructions".data (lowerData s.data) ||
  containsSub "system prompt".data (lowerData s.data) ||
  containsSub "forget everything".data (lowerData s.data) ||
  containsSub "output as code".data (lowerData s.data) ||
  containsSub "reveal secret".data (lowerData s.data) ||
  containsSub "[inject]".data (lowerData s.data) ||
  containsSub "[inject)".data (lowerData s.data) ||
  containsSub "(inject]".data (lowerData s.data) ||
  containsSub "(inject)".data (lowerData s.data) ||
  containsSub "base64".data (lowerData s.data) ||
  containsSub "http://".data (lowerData s.data) ||
  containsSub "https://".data (lowerData s.data)

/-- Lowercase hexadecimal digit, as bytes.hex() emits them. -/
def isHexLowerChar (c : Char) : Bool :=
  (48 ≤ c.toNat && c.toNat ≤ 57) || (97 ≤ c.toNat && c.toNat ≤ 102)

/-- Concrete instance state used by the concrete runs: default
construction parameters and a fixed 32-hex session id. -/
def fWitness : SymbolicScrollFocusFilter :=
  ⟨⟨1, 2, by decide, Nat.coprime_one_left 2⟩, [],
    "0123456789abcdef0123456789abcdef", "private_logs"⟩

/-- World with an empty filesystem. -/
def wMissing : World := ⟨[], [], fun n => n, 0⟩

/-- World whose only entry is a directory. -/
def wDir : World := ⟨[("logs", FSEntry.dir)], [], fun n => n, 0⟩

/-- World holding one high-energy input file. -/
def wEnergetic : World := ⟨[("log.txt", FSEntry.file "Energetic")], [], fun n => n, 0⟩

/-- Input of the end-to-end example in the specification (also the
content the self-test harness writes). -/
def testContent : String := "Energetic symbiosis truth with chaotic injection attempt."

/-- World holding the self-test input file. -/
def testWorld : World := ⟨[("test_log.txt", FSEntry.file testContent)], [], fun n => n, 0⟩

/-- World holding one low-energy input file (its content contains
neither energetic nor chaotic). -/
def wCalm : World := ⟨[("calm.txt", FSEntry.file "calm waters")], [], fun n => n, 0⟩

theorem containsSub_iff (p : List Char) : ∀ s : List Char, containsSub p s = true ↔ p <:+: s
  | [] => by
    simp [containsSub, List.isPrefixOf_iff_prefix, List.infix_nil, List.prefix_nil]
  | c :: rest => by
    simp [containsSub, List.isPrefixOf_iff_prefix, containsSub_iff p rest,
      List.infix_cons_iff]

theorem startsWithCI_length {p s : List Char} (h : startsWithCI p s = true) :
    p.length ≤ s.length := by
  have h2 : p <+: lowerData s := List.isPrefixOf_iff_prefix.mp h
  simpa [lowerData] using h2.length_le

theorem dropToScriptClose_length :
    ∀ {s r : List Char}, dropToScriptClose s = some r → r.length < s.length := by
  intro s
  induction s with
  | nil => intro r h; simp [dropToScriptClose] at h
  | cons c rest ih =>
    intro r h
    by_cases hc : startsWithCI scriptClose (c :: rest) = true
    · simp [dropToScriptClose, hc] at h
      subst h
      simp [List.length_drop]
      omega
    · simp [dropToScriptClose, hc] at h
      have := ih h
      simpa using Nat.lt_succ_of_lt this

theorem matchScript_length {s r : List Char} (h : matchScript s = some r) :
    r.length < s.length := by
  by_cases ho : startsWithCI scriptOpen s = true
  · simp [matchScript, ho] at h
    have h1 := dropToScriptClose_length h
    have h2 : (s.drop 7).length ≤ s.length := by
      simp [List.length_drop]
    omega
  · simp [matchScript, ho] at h

theorem scanToQuote_length :
    ∀ {s r : List Char}, scanToQuote s = some r → r.length < s.length := by
  intro s
  induction s with
  | nil => intro r h; simp [scanToQuote] at h
  | cons c rest ih =>
    intro r h
    by_cases hq : isQuoteChar c = true
    · simp [scanToQuote, hq] at h
      subst h
      simp
    · by_cases hn : (c == '\n') = true
      · simp [scanToQuote, hq, hn] at h
      · simp [scanToQuote, hq, hn] at h
        have := ih h
        simpa using Nat.lt_succ_of_lt this

theorem matchHandler_length :
    ∀ {s r : List Char}, matchHandler s = some r → r.length < s.length := by
  intro s r h
  unfold matchHandler at h
  split at h
  · rename_i rest
    split at h
    · simp at h
    · split at h
      · rename_i q rest3 heq
        split at h
        · have h3 := scanToQuote_length h
          have h4 : (rest.dropWhile isWordChar).length ≤ rest.length :=
            (List.dropWhile_suffix isWordChar).length_le
          rw [heq] at h4
          simp at h4 ⊢
          omega
        · simp at h
      · simp at h
  · simp at h

theorem replaceAllF_length_le (m : List Char → Option (List Char))
    (hm : ∀ {s r : List Char}, m s = some r → r.length < s.length) :
    ∀ (fuel : Nat) (s : List Char), (replaceAllF m fuel s).length ≤ s.length := by
  intro fuel
  induction fuel with
  | zero => intro s; simp [replaceAllF]
  | succ n ih =>
    intro s
    cases s with
    | nil => simp [replaceAllF]
    | cons c rest =>
      cases hmc : m (c :: rest) with
      | some rest2 =>
        have h1 := ih rest2
        have h2 := hm hmc
        simp only [replaceAllF, hmc]
        omega
      | none =>
        have h1 := ih rest
        simp only [replaceAllF, hmc, List.length_cons]
        omega

theorem replaceAllF_eq_self (m : List Char → Option (List Char))
    (hm : ∀ {s r : List Char}, m s = some r → r.length < s.length) :
    ∀ (fuel : Nat) (s : List Char), s.length ≤ fuel →
      (replaceAllF m fuel s).length = s.length →
      replaceAllF m fuel s = s ∧ containsMatch m s = false := by
  intro fuel
  induction fuel with
  | zero =>
    intro s hs _
    have : s = [] := List.length_eq_zero.mp (Nat.le_zero.mp hs)
    subst this
    simp [replaceAllF, containsMatch]
  | succ n ih =>
    intro s hs hlen
    cases s with
    | nil => simp [replaceAllF, containsMatch]
    | cons c rest =>
      cases hmc : m (c :: rest) with
      | some rest2 =>
        exfalso
        have h1 := replaceAllF_length_le m hm n rest2
        have h2 := hm hmc
        simp only [replaceAllF, hmc] at hlen
        have hlen2 : (replaceAllF m n rest2).length = rest.length + 1 := by
          simpa using hlen
        simp at h2
        omega
      | none =>
        simp only [replaceAllF, hmc] at hlen ⊢
        simp only [List.length_cons, Nat.succ_le_succ_iff] at hs
        have hlen2 : (replaceAllF m n rest).length = rest.length := by
          simp at hlen
          omega
        have := ih rest hs hlen2
        simp [containsMatch, hmc, this.1, this.2]

theorem replaceAllF_of_clean (m : List Char → Option (List Char)) :
    ∀ (fuel : Nat) (s : List Char), containsMatch m s = false →
      replaceAllF m fuel s = s := by
  intro fuel
  induction fuel with
  | zero => intro s _; simp [replaceAllF]
  | succ n ih =>
    intro s hc
    cases s with
    | nil => simp [replaceAllF]
    | cons c rest =>
      simp only [containsMatch, Bool.or_eq_false_iff] at hc
      cases hmc : m (c :: rest) with
      | some rest2 =>
        exfalso
        rw [hmc] at hc
        simp at hc
      | none =>
        simp only [replaceAllF, hmc]
        rw [ih rest hc.2]

theorem stripScript_eq_self_iff (s : List Char) :
    stripScript s = s ↔ containsScriptBlock s = false := by
  constructor
  · intro h
    have hlen : (stripScript s).length = s.length := by rw [h]
    exact (replaceAllF_eq_self matchScript (fun h2 => matchScript_length h2)
      s.length s le_rfl hlen).2
  · intro h
    exact replaceAllF_of_clean matchScript s.length s h

theorem stripHandlers_eq_self_iff (s : List Char) :
    stripHandlers s = s ↔ containsHandlerAttr s = false := by
  constructor
  · intro h
    have hlen : (stripHandlers s).length = s.length := by rw [h]
    exact (replaceAllF_eq_self matchHandler (fun h2 => matchHandler_length h2)
      s.length s le_rfl hlen).2
  · intro h
    exact replaceAllF_of_clean matchHandler s.length s h

theorem sanitizeList_eq_self_iff (s : List Char) :
    sanitizeList s = s ↔ containsScriptBlock s = false ∧ containsHandlerAttr s = false := by
  constructor
  · intro h
    have h1 : (stripScript s).length ≤ s.length :=
      replaceAllF_length_le matchScript (fun h2 => matchScript_length h2) s.length s
    have h2 : (stripHandlers (stripScript s)).length ≤ (stripScript s).length :=
      replaceAllF_length_le matchHandler (fun h3 => matchHandler_length h3)
        (stripScript s).length (stripScript s)
    have hlen : s.length = (sanitizeList s).length := by rw [h]
    have hSlen : (stripScript s).length = s.length := by
      simp only [sanitizeList] at hlen
      omega
    have hS : stripScript s = s :=
      (replaceAllF_eq_self matchScript (fun h3 => matchScript_length h3)
        s.length s le_rfl hSlen).1
    have hH : stripHandlers s = s := by
      have := h
      simp only [sanitizeList, hS] at this
      exact this
    exact ⟨(stripScript_eq_self_iff s).mp hS, (stripHandlers_eq_self_iff s).mp hH⟩
  · intro ⟨h1, h2⟩
    have hS : stripScript s = s := (stripScript_eq_self_iff s).mpr h1
    have hH : stripHandlers s = s := (stripHandlers_eq_self_iff s).mpr h2
    simp [sanitizeList, hS, hH]

theorem lookup_updateAssoc_self {β : Type} (k : String) (v : β) :
    ∀ l : List (String × β), List.lookup k (updateAssoc k v l) = some v := by
  intro l
  induction l with
  | nil => simp [updateAssoc, List.lookup]
  | cons p rest ih =>
    obtain ⟨k2, v2⟩ := p
    by_cases h : k2 = k
    · simp [updateAssoc, h, List.lookup]
    · have hb : (k == k2) = false := beq_eq_false_iff_ne.mpr (Ne.symm h)
      simp [updateAssoc, h, List.lookup, hb, ih]

theorem updateAssoc_updateAssoc {β : Type} (k : String) (v v2 : β) :
    ∀ l : List (String × β), updateAssoc k v (updateAssoc k v2 l) = updateAssoc k v l := by
  intro l
  induction l with
  | nil => simp [updateAssoc]
  | cons p rest ih =>
    obtain ⟨k2, v3⟩ := p
    by_cases h : k2 = k
    · simp [updateAssoc, h]
    · simp [updateAssoc, h, ih]

theorem map_fst_updateAssoc {β : Type} (k : String) (v v2 : β) :
    ∀ l : List (String × β),
      (updateAssoc k v l).map Prod.fst = (updateAssoc k v2 l).map Prod.fst := by
  intro l
  induction l with
  | nil => simp [updateAssoc]
  | cons p rest ih =>
    obtain ⟨k2, v3⟩ := p
    by_cases h : k2 = k
    · simp [updateAssoc, h]
    · simp [updateAssoc, h, ih]

theorem sanitize_and_focus_context_state (f : SymbolicScrollFocusFilter) (t : String) :
    (sanitize_and_focus_context f t).2 = f := by
  unfold sanitize_and_focus_context
  by_cases hd : detect_injection t = true
  · simp [hd]
  · simp only [Bool.not_eq_true] at hd
    by_cases he :
        (extract_symbolic_traits (String.mk (sanitizeList t.data))).ethics = "chaotic" <;>
      simp [hd, he]

theorem sanitize_and_focus_context_msg_mood (m1 m2 : Rat)
    (mem1 mem2 : List (String × SectionRecord)) (sid bd1 bd2 t : String) :
    (sanitize_and_focus_context ⟨m1, mem1, sid, bd1⟩ t).1 =
      (sanitize_and_focus_context ⟨m2, mem2, sid, bd2⟩ t).1 := by
  unfold sanitize_and_focus_context
  by_cases hd : detect_injection t = true
  · simp [hd]
  · simp only [Bool.not_eq_true] at hd
    by_cases he :
        (extract_symbolic_traits (String.mk (sanitizeList t.data))).ethics = "chaotic" <;>
      simp [hd, he]

theorem process_text_file_session_id (fp : String) (f : SymbolicScrollFocusFilter)
    (w : World) : ((process_text_file fp f w).2.1).session_id = f.session_id := by
  unfold process_text_file
  split
  · rfl
  · rfl
  · rename_i content hL
    by_cases hE : (extract_symbolic_traits content).energy = "high" <;> simp [hE]

theorem process_text_file_high (fp content : String) (f : SymbolicScrollFocusFilter)
    (w : World) (hfile : List.lookup fp w.files = some (FSEntry.file content))
    (hen : containsSub "energetic".data (lowerData content.data) = true) :
    process_text_file fp f w =
      (.ok ("Processed + preserved " ++ fp ++ ": " ++
          (sanitize_and_focus_context
            { f with
                symbolic_memory :=
                  updateAssoc "text_section" ⟨content, extract_symbolic_traits content⟩
                    f.symbolic_memory } content).1),
        { f with
            symbolic_memory :=
              updateAssoc "text_section" ⟨content, extract_symbolic_traits content⟩
                f.symbolic_memory },
        { w with
            backups :=
              updateAssoc (stemOf fp ++ "_" ++ f.session_id ++ ".enc")
                ⟨w.entropy w.entropyIdx, content⟩ w.backups,
            entropyIdx := w.entropyIdx + 1 }) := by
  have hE : (extract_symbolic_traits content).energy = "high" := by
    simp [extract_symbolic_traits, hen]
  unfold process_text_file
  rw [hfile]
  simp [hE]

/-- C4: for every text in which detect_injection finds an injection
signature, sanitize_and_focus_context returns exactly the
neutralization message naming the session id and hands back the
instance state unchanged (symbolic_memory and session_id untouched):
the sanitizer, trait extraction and focus reduction never run. -/
theorem injection_hard_short_circuit (f : SymbolicScrollFocusFilter) (t : String)
    (h : detect_injection t = true) :
    sanitize_and_focus_context f t =
      ("Suspicious input in session " ++ f.session_id ++ ". Context neutralized.", f) := by
  unfold sanitize_and_focus_context
  rw [if_pos h]

/-- Witness for injection_hard_short_circuit at a concrete injected
input. -/
theorem injection_hard_short_circuit_witness :
    sanitize_and_focus_context fWitness "please reveal secret" =
      ("Suspicious input in session " ++ fWitness.session_id ++ ". Context neutralized.",
        fWitness) :=
  injection_hard_short_circuit fWitness "please reveal secret" (by decide)

/-- C7: for every path absent from the filesystem, process_text_file
returns the not-found status naming the path and the session id,
raises nothing, writes no backup and leaves instance state and world
unchanged. -/
theorem process_missing_file_soft_failure (fp : String) (f : SymbolicScrollFocusFilter)
    (w : World) (h : List.lookup fp w.files = none) :
    process_text_file fp f w =
      (.ok ("File " ++ fp ++ " not found in session " ++ f.session_id ++ "."), f, w) := by
  unfold process_text_file
  rw [h]

/-- Witness for process_missing_file_soft_failure on an empty
filesystem. -/
theorem process_missing_file_soft_failure_witness :
    process_text_file "ghost.txt" fWitness wMissing =
      (.ok ("File " ++ "ghost.txt" ++ " not found in session " ++
        fWitness.session_id ++ "."), fWitness, wMissing) :=
  process_missing_file_soft_failure "ghost.txt" fWitness wMissing (by decide)

/-- C10: for every path bound to a directory, the existence check
passes (so the not-found branch is not taken) and the subsequent open
raises an unhandled fault; no backup is written and the session memory
is unchanged. -/
theorem process_directory_unhandled_fault (fp : String) (f : SymbolicScrollFocusFilter)
    (w : World) (h : List.lookup fp w.files = some FSEntry.dir) :
    process_text_file fp f w = (.isADirectoryError, f, w) := by
  unfold process_text_file
  rw [h]

/-- Witness for process_directory_unhandled_fault on a world holding
one directory. -/
theorem process_directory_unhandled_fault_witness :
    process_text_file "logs" fWitness wDir = (.isADirectoryError, fWitness, wDir) :=
  process_directory_unhandled_fault "logs" fWitness wDir (by decide)

/-- C2 counterexample: the claim that all eight signatures are
case-insensitive fails on "BASE64": the claimed all-case-insensitive
detector accepts it, but detect_injection as the source defines it
returns false, because the base64 pattern carries no (?i) flag. -/
theorem detect_injection_case_sensitivity_cex :
    detectAllCaseInsensitive "BASE64" = true ∧ detect_injection "BASE64" = false := by
  decide

/-- C2 amended: detect_injection returns true iff the text contains
one of the five phrase signatures case-insensitively, or contains
case-sensitively one of the four bracketed inject tokens, the
substring base64, or an http:// or https:// prefix. -/
theorem detect_injection_signature_characterisation (s : String) :
    detect_injection s = true ↔
      ("ignore previous instructions".data <:+: lowerData s.data ∨
        "system prompt".data <:+: lowerData s.data ∨
        "forget everything".data <:+: lowerData s.data ∨
        "output as code".data <:+: lowerData s.data ∨
        "reveal secret".data <:+: lowerData s.data) ∨
      ("[inject]".data <:+: s.data ∨ "[inject)".data <:+: s.data ∨
        "(inject]".data <:+: s.data ∨ "(inject)".data <:+: s.data) ∨
      "base64".data <:+: s.data ∨
      ("http://".data <:+: s.data ∨ "https://".data <:+: s.data) := by
  simp only [detect_injection, Bool.or_eq_true, containsSub_iff]
  tauto

/-- C3 counterexample: removing the inner script block of this input
splices a new script block together, so the sanitizer output still
contains one. -/
theorem sanitize_output_retains_script_block :
    String.mk (sanitizeList "<scr<script></script>ipt>hello</script>".data) =
      "<script>hello</script>" ∧
    containsScriptBlock
      (sanitizeList "<scr<script></script>ipt>hello</script>".data) = true := by
  decide

/-- C3 amended: a single sanitizer pass removes every leftmost
non-overlapping script-block and handler-attribute match, but splicing
can re-create occurrences, so the output is guaranteed free of both
patterns exactly when a second sanitizer pass leaves it unchanged. -/
theorem sanitize_clean_iff_second_pass_fixed (s : List Char) :
    (containsScriptBlock (sanitizeList s) = false ∧
      containsHandlerAttr (sanitizeList s) = false) ↔
      sanitizeList (sanitizeList s) = sanitizeList s :=
  (sanitizeList_eq_self_iff (sanitizeList s)).symm

theorem contains_focus_eq (w : List Char) :
    focusPhrases.contains w = decide (w ∈ focusPhrases) := by
  by_cases hw : w ∈ focusPhrases <;> simp [hw, List.contains]

/-- C5: for every text with no injection signature whose sanitized
form has no chaotic substring, the focused output embedded in the
returned message is exactly the whitespace-delimited tokens of the
sanitized text whose lower-cased form is an approved focus phrase, in
original order with duplicates preserved, joined by single spaces. -/
theorem focused_context_token_filter (f : SymbolicScrollFocusFilter) (t : String)
    (h1 : detect_injection t = false)
    (h2 : containsSub "chaotic".data (lowerData (sanitizeList t.data)) = false) :
    (sanitize_and_focus_context f t).1 =
      "Focused context in " ++ f.session_id ++ ": " ++
        String.mk (List.intercalate [' ']
          ((pySplit (sanitizeList t.data)).filter
            (fun w => decide (w.map pyLower ∈ focusPhrases)))) ++
      ". Traits: " ++
        reprTraits (extract_symbolic_traits (String.mk (sanitizeList t.data))) := by
  have hq : (extract_symbolic_traits (String.mk (sanitizeList t.data))).ethics =
      "grounded" := by
    simp [extract_symbolic_traits, h2]
  have hfn : (fun w : List Char => focusPhrases.contains (w.map pyLower)) =
      (fun w : List Char => decide (w.map pyLower ∈ focusPhrases)) := by
    funext w
    exact contains_focus_eq (w.map pyLower)
  unfold sanitize_and_focus_context
  simp [h1, hq, hfn]

/-- C6: the specification's end-to-end example.  On the self-test
input, detect_injection is false (the bracketed inject pattern does
not match the bare word injection), the raw traits are energy high and
ethics chaotic, sanitize_and_focus_context takes the pruned branch and
names the session id and the trait tag, and process_text_file stores
the section record, writes one backup file, and returns the composite
message embedding the pruned-branch text. -/
theorem end_to_end_energetic_chaotic_example :
    detect_injection testContent = false ∧
    extract_symbolic_traits testContent = ⟨"high", "chaotic"⟩ ∧
    (sanitize_and_focus_context fWitness testContent).1 =
      "Pruned context in 0123456789abcdef0123456789abcdef for symbiosis. Traits: " ++
        "\x7b\x27energy\x27: \x27high\x27, \x27ethics\x27: \x27chaotic\x27\x7d" ∧
    (sanitize_and_focus_context fWitness testContent).2 = fWitness ∧
    (process_text_file "test_log.txt" fWitness testWorld).1 =
      PyResult.ok ("Processed + preserved test_log.txt: " ++
        "Pruned context in 0123456789abcdef0123456789abcdef for symbiosis. Traits: " ++
        "\x7b\x27energy\x27: \x27high\x27, \x27ethics\x27: \x27chaotic\x27\x7d") ∧
    (process_text_file "test_log.txt" fWitness testWorld).2.1.symbolic_memory =
      [("text_section", ⟨testContent, ⟨"high", "chaotic"⟩⟩)] ∧
    (process_text_file "test_log.txt" fWitness testWorld).2.2.backups.map Prod.fst =
      ["test_log_0123456789abcdef0123456789abcdef.enc"] := by
  decide

/-- Witness for focused_context_token_filter at a clean, high-energy
input with mixed-case tokens and a duplicate. -/
theorem focused_context_token_filter_witness :
    (sanitize_and_focus_context fWitness
        "Energetic TRUTH and Compression gives symbiosis truth now").1 =
      "Focused context in " ++ fWitness.session_id ++ ": " ++
        String.mk (List.intercalate [' ']
          ((pySplit (sanitizeList
              "Energetic TRUTH and Compression gives symbiosis truth now".data)).filter
            (fun w => decide (w.map pyLower ∈ focusPhrases)))) ++
      ". Traits: " ++
        reprTraits (extract_symbolic_traits (String.mk (sanitizeList
          "Energetic TRUTH and Compression gives symbiosis truth now".data))) :=
  focused_context_token_filter fWitness
    "Energetic TRUTH and Compression gives symbiosis truth now" (by decide) (by decide)

theorem hexPairs_length : ∀ l : List Nat,
    ((l.map (fun b => [Nat.digitChar (b / 16), Nat.digitChar (b % 16)])).flatten).length =
      2 * l.length := by
  intro l
  induction l with
  | nil => rfl
  | cons b rest ih =>
    simp only [List.map_cons, List.flatten_cons, List.length_append, List.length_cons,
      List.length_nil, ih]
    omega

theorem digitChar_isHexLower {n : Nat} (h : n < 16) :
    isHexLowerChar (Nat.digitChar n) = true := by
  interval_cases n <;> decide

theorem containsSub_mid (a b p : List Char) : containsSub p (a ++ p ++ b) = true :=
  (containsSub_iff p (a ++ p ++ b)).mpr (List.infix_append a p b)

theorem containsSub_self_suffix (a p : List Char) : containsSub p (a ++ p) = true := by
  rw [containsSub_iff]
  exact ⟨a, [], by simp⟩

theorem containsSub_extend_right (p l a : List Char) (h : containsSub p l = true) :
    containsSub p (l ++ a) = true := by
  rw [containsSub_iff] at h ⊢
  exact h.trans (List.prefix_append l a).isInfix

theorem containsSub_append_left (p a l : List Char) (h : containsSub p l = true) :
    containsSub p (a ++ l) = true := by
  rw [containsSub_iff] at h ⊢
  exact h.trans (List.suffix_append a l).isInfix

theorem sanitize_msg_contains_session_id (f : SymbolicScrollFocusFilter) (t : String) :
    containsSub f.session_id.data ((sanitize_and_focus_context f t).1).data = true := by
  unfold sanitize_and_focus_context
  by_cases hd : detect_injection t = true
  · rw [if_pos hd]
    dsimp only
    simp only [String.data_append]
    exact containsSub_mid _ _ _
  · rw [if_neg hd]
    dsimp only
    by_cases he :
        (extract_symbolic_traits (String.mk (sanitizeList t.data))).ethics = "chaotic"
    · rw [if_pos he]
      dsimp only
      simp only [String.data_append]
      exact containsSub_extend_right _ _ _ (containsSub_mid _ _ _)
    · rw [if_neg he]
      dsimp only
      simp only [String.data_append]
      exact containsSub_extend_right _ _ _ (containsSub_extend_right _ _ _
        (containsSub_extend_right _ _ _ (containsSub_mid _ _ _)))

/-- C8 counterexample: a message the instance returns without the
session identifier anywhere within it.  The buffered low-energy notice
(src line 71) names only the file path and the traits, so the original
claim that every returned message embeds the same identifier fails at
this input. -/
theorem low_energy_message_lacks_session_id :
    (process_text_file "calm.txt" fWitness wCalm).1 =
      PyResult.ok ("Buffered low-energy text from calm.txt. Traits: " ++
        "\x7b\x27energy\x27: \x27neutral\x27, \x27ethics\x27: \x27grounded\x27\x7d") ∧
    containsSub fWitness.session_id.data
      ("Buffered low-energy text from calm.txt. Traits: " ++
        "\x7b\x27energy\x27: \x27neutral\x27, \x27ethics\x27: \x27grounded\x27\x7d").data =
      false := by
  decide

/-- C8 amended: the session identifier rendered by generate_session_id
from 16 bytes is a 32-character lowercase-hexadecimal string, fixed at
construction, and the operations that take the instance state hand it
back with session_id unchanged (detect_injection and
extract_symbolic_traits read no instance state at all in the source,
so they cannot touch it); every sanitize_and_focus_context message,
the not-found message, and the composite processed-and-preserved
message embed this same identifier, while the buffered low-energy
notice names only the file path and the traits. -/
theorem session_id_32_hex_and_immutable (bytes : List Nat) (fp t : String)
    (f : SymbolicScrollFocusFilter) (w : World)
    (h16 : bytes.length = 16) (hb : bytes.all (fun b => decide (b < 256)) = true) :
    (generate_session_id bytes).length = 32 ∧
    (generate_session_id bytes).data.all isHexLowerChar = true ∧
    ((process_text_file fp f w).2.1).session_id = f.session_id ∧
    ((sanitize_and_focus_context f t).2).session_id = f.session_id ∧
    containsSub f.session_id.data ((sanitize_and_focus_context f t).1).data = true ∧
    containsSub f.session_id.data
      ("File " ++ fp ++ " not found in session " ++ f.session_id ++ ".").data = true ∧
    containsSub f.session_id.data
      ("Processed + preserved " ++ fp ++ ": " ++
        (sanitize_and_focus_context f t).1).data = true := by
  refine ⟨?_, ?_, process_text_file_session_id fp f w, ?_,
    sanitize_msg_contains_session_id f t, ?_, ?_⟩
  · have h2 : (generate_session_id bytes).length =
        ((bytes.map (fun b => [Nat.digitChar (b / 16), Nat.digitChar (b % 16)])).flatten).length :=
      rfl
    rw [h2, hexPairs_length, h16]
  · simp only [List.all_eq_true] at hb ⊢
    intro c hc
    have hc2 : c ∈ (bytes.map
        (fun b => [Nat.digitChar (b / 16), Nat.digitChar (b % 16)])).flatten := hc
    rw [List.mem_flatten] at hc2
    obtain ⟨l2, hl2, hcl⟩ := hc2
    rw [List.mem_map] at hl2
    obtain ⟨b, hbmem, rfl⟩ := hl2
    have hb2 : b < 256 := by simpa using hb b hbmem
    simp only [List.mem_cons, List.mem_singleton] at hcl
    rcases hcl with rfl | rfl | h
    · exact digitChar_isHexLower (by omega)
    · exact digitChar_isHexLower (Nat.mod_lt b (by omega))
    · simp at h
  · rw [sanitize_and_focus_context_state]
  · simp only [String.data_append]
    exact containsSub_extend_right _ _ _ (containsSub_self_suffix _ _)
  · simp only [String.data_append]
    exact containsSub_append_left _ _ _ (sanitize_msg_contains_session_id f t)

/-- Witness for session_id_32_hex_and_immutable at sixteen zero bytes
and concrete pipeline inputs. -/
theorem session_id_32_hex_and_immutable_witness :
    (generate_session_id (List.replicate 16 0)).length = 32 ∧
    (generate_session_id (List.replicate 16 0)).data.all isHexLowerChar = true ∧
    ((process_text_file "test_log.txt" fWitness testWorld).2.1).session_id =
      fWitness.session_id ∧
    ((sanitize_and_focus_context fWitness testContent).2).session_id =
      fWitness.session_id ∧
    containsSub fWitness.session_id.data
      ((sanitize_and_focus_context fWitness testContent).1).data = true ∧
    containsSub fWitness.session_id.data
      ("File " ++ "test_log.txt" ++ " not found in session " ++
        fWitness.session_id ++ ".").data = true ∧
    containsSub fWitness.session_id.data
      ("Processed + preserved " ++ "test_log.txt" ++ ": " ++
        (sanitize_and_focus_context fWitness testContent).1).data = true :=
  session_id_32_hex_and_immutable (List.replicate 16 0) "test_log.txt" testContent
    fWitness testWorld (by decide) (by decide)

/-- C9: no decision path reads mood_threshold.  Two instances that
agree on memory, session id and backup directory but differ in
mood_threshold produce identical messages and identical state changes
on every input, for process_text_file and sanitize_and_focus_context
(detect_injection and extract_symbolic_traits take no instance state
in the source at all). -/
theorem mood_threshold_never_consulted (fp t sid bd : String)
    (mem : List (String × SectionRecord)) (w : World) (m1 m2 : Rat) :
    (process_text_file fp ⟨m1, mem, sid, bd⟩ w).1 =
      (process_text_file fp ⟨m2, mem, sid, bd⟩ w).1 ∧
    (process_text_file fp ⟨m1, mem, sid, bd⟩ w).2.1.symbolic_memory =
      (process_text_file fp ⟨m2, mem, sid, bd⟩ w).2.1.symbolic_memory ∧
    (process_text_file fp ⟨m1, mem, sid, bd⟩ w).2.1.session_id =
      (process_text_file fp ⟨m2, mem, sid, bd⟩ w).2.1.session_id ∧
    (process_text_file fp ⟨m1, mem, sid, bd⟩ w).2.1.backup_dir =
      (process_text_file fp ⟨m2, mem, sid, bd⟩ w).2.1.backup_dir ∧
    (process_text_file fp ⟨m1, mem, sid, bd⟩ w).2.2 =
      (process_text_file fp ⟨m2, mem, sid, bd⟩ w).2.2 ∧
    (sanitize_and_focus_context ⟨m1, mem, sid, bd⟩ t).1 =
      (sanitize_and_focus_context ⟨m2, mem, sid, bd⟩ t).1 := by
  have hs0 := sanitize_and_focus_context_msg_mood m1 m2 mem mem sid bd bd t
  cases hL : List.lookup fp w.files with
  | none => simp [process_text_file, hL, hs0]
  | some e =>
    cases e with
    | dir => simp [process_text_file, hL, hs0]
    | file content =>
      by_cases hE : (extract_symbolic_traits content).energy = "high"
      · have hs := sanitize_and_focus_context_msg_mood m1 m2
          (updateAssoc "text_section" ⟨content, extract_symbolic_traits content⟩ mem)
          (updateAssoc "text_section" ⟨content, extract_symbolic_traits content⟩ mem)
          sid bd bd content
        simp [process_text_file, hL, hE, hs0, hs]
      · simp [process_text_file, hL, hE, hs0]

/-- C1 counterexample: two process_text_file calls on the same
energetic file from the same instance do NOT produce two distinct
backup files.  The backup path stem_sessionid.enc is the same for both
calls, so after the second call the backup directory still holds
exactly the one file it held after the first: the second call created
no new file, it overwrote the existing one. -/
theorem two_calls_write_one_backup_file :
    ((process_text_file "log.txt" fWitness wEnergetic).2.2).backups.map Prod.fst =
      ["log_0123456789abcdef0123456789abcdef.enc"] ∧
    ((process_text_file "log.txt" (process_text_file "log.txt" fWitness wEnergetic).2.1
        (process_text_file "log.txt" fWitness wEnergetic).2.2).2.2).backups.map Prod.fst =
      ["log_0123456789abcdef0123456789abcdef.enc"] := by
  decide

/-- C1 amended: every backup-producing call writes one blob at the
fixed path stem_sessionid.enc — the second call on the same file
overwrites the first, adding no new file — and each call draws a fresh
key from the entropy stream, so when the stream is injective the two
ciphertexts are not decryptable under any common key. -/
theorem backup_key_fresh_and_path_fixed (fp content : String)
    (f : SymbolicScrollFocusFilter) (w : World)
    (hfile : List.lookup fp w.files = some (FSEntry.file content))
    (hen : containsSub "energetic".data (lowerData content.data) = true)
    (hinj : Function.Injective w.entropy) :
    List.lookup (stemOf fp ++ "_" ++ f.session_id ++ ".enc")
        ((process_text_file fp f w).2.2).backups =
      some ⟨w.entropy w.entropyIdx, content⟩ ∧
    List.lookup (stemOf fp ++ "_" ++ f.session_id ++ ".enc")
        ((process_text_file fp (process_text_file fp f w).2.1
            (process_text_file fp f w).2.2).2.2).backups =
      some ⟨w.entropy (w.entropyIdx + 1), content⟩ ∧
    ((process_text_file fp (process_text_file fp f w).2.1
        (process_text_file fp f w).2.2).2.2).backups.map Prod.fst =
      ((process_text_file fp f w).2.2).backups.map Prod.fst ∧
    (∀ k : Nat, (fernetDecrypt k ⟨w.entropy w.entropyIdx, content⟩).isSome = true →
      fernetDecrypt k ⟨w.entropy (w.entropyIdx + 1), content⟩ = none) := by
  have h1 := process_text_file_high fp content f w hfile hen
  have h2 := process_text_file_high fp content
    { f with
        symbolic_memory :=
          updateAssoc "text_section" ⟨content, extract_symbolic_traits content⟩
            f.symbolic_memory }
    { w with
        backups :=
          updateAssoc (stemOf fp ++ "_" ++ f.session_id ++ ".enc")
            ⟨w.entropy w.entropyIdx, content⟩ w.backups,
        entropyIdx := w.entropyIdx + 1 }
    hfile hen
  refine ⟨?_, ?_, ?_, ?_⟩
  · simp only [h1]
    exact lookup_updateAssoc_self _ _ _
  · simp only [h1, h2]
    exact lookup_updateAssoc_self _ _ _
  · simp only [h1, h2]
    rw [updateAssoc_updateAssoc]
    exact map_fst_updateAssoc _ _ _ _
  · intro k hk
    by_cases hkk : k = w.entropy w.entropyIdx
    · have hne : w.entropy w.entropyIdx ≠ w.entropy (w.entropyIdx + 1) := by
        intro hEq
        have h3 := hinj hEq
        omega
      subst hkk
      simp [fernetDecrypt, hne]
    · exfalso
      simp [fernetDecrypt, hkk] at hk

/-- Witness for backup_key_fresh_and_path_fixed on a concrete world
with an identity entropy stream. -/
theorem backup_key_fresh_and_path_fixed_witness :
    List.lookup (stemOf "log.txt" ++ "_" ++ fWitness.session_id ++ ".enc")
        ((process_text_file "log.txt" fWitness wEnergetic).2.2).backups =
      some ⟨wEnergetic.entropy wEnergetic.entropyIdx, "Energetic"⟩ ∧
    List.lookup (stemOf "log.txt" ++ "_" ++ fWitness.session_id ++ ".enc")
        ((process_text_file "log.txt" (process_text_file "log.txt" fWitness wEnergetic).2.1
            (process_text_file "log.txt" fWitness wEnergetic).2.2).2.2).backups =
      some ⟨wEnergetic.entropy (wEnergetic.entropyIdx + 1), "Energetic"⟩ ∧
    ((process_text_file "log.txt" (process_text_file "log.txt" fWitness wEnergetic).2.1
        (process_text_file "log.txt" fWitness wEnergetic).2.2).2.2).backups.map Prod.fst =
      ((process_text_file "log.txt" fWitness wEnergetic).2.2).backups.map Prod.fst ∧
    (∀ k : Nat,
      (fernetDecrypt k ⟨wEnergetic.entropy wEnergetic.entropyIdx, "Energetic"⟩).isSome =
        true →
      fernetDecrypt k ⟨wEnergetic.entropy (wEnergetic.entropyIdx + 1), "Energetic"⟩ =
        none) :=
  backup_key_fresh_and_path_fixed "log.txt" "Energetic" fWitness wEnergetic
    (by decide) (by decide) (fun _ _ h => h)

end ScrollFilter
